import Mathlib

/-!
Shallow embedding of the LocalRouter connectors repository (TypeScript MCP
connectors for the Claude Code and Codex CLIs), together with proofs about
the embedded operations.

Strings manipulated character by character are modelled as `List Char`;
JavaScript records and parsed JSON values are modelled by the `JsonValue`
type; the mutable per-session records of the two session managers are
modelled as Lean structures with explicit state passing, and the session
`Map` is modelled as an insertion-ordered list.  Fallible operations return
`Except`.
-/

set_option maxRecDepth 4096

/-! ## String utilities (packages/mcp-base/src/answer-parser.ts) -/

/-- Whitespace test backing the model of JavaScript `String.prototype.trim`. -/
def jsWhitespace (c : Char) : Bool :=
  c == (' ') || c == ('\t') || c == ('\n') || c == ('\r')

/-- Model of `s.trimStart()` on a list of characters. -/
def trimLeft (s : List Char) : List Char :=
  s.dropWhile jsWhitespace

/-- Model of `s.trimEnd()` on a list of characters. -/
def trimRight (s : List Char) : List Char :=
  (s.reverse.dropWhile jsWhitespace).reverse

/-- Model of JavaScript `s.trim()` on a list of characters. -/
def jsTrim (s : List Char) : List Char :=
  trimRight (trimLeft s)

/-- Result record of `parseAnswer`: `{ decision, reason? }`. -/
structure AnswerParts where
  decision : List Char
  reason : Option (List Char)
deriving DecidableEq

/-- Embedding of `parseAnswer` (answer-parser.ts): look for the first `:`;
without one the whole trimmed input is the decision, otherwise the part
before the first colon is the trimmed decision and everything after it is
the trimmed reason. -/
def parseAnswer (answer : List Char) : AnswerParts :=
  if (':') ∈ answer then
    { decision := jsTrim (answer.takeWhile (fun c => c != (':'))),
      reason := some (jsTrim ((answer.dropWhile (fun c => c != (':'))).drop 1)) }
  else
    { decision := jsTrim answer, reason := none }

/-! ## Ring history (packages/mcp-base/src/session-base.ts, class EventBuffer) -/

/-- Model of the JavaScript slice-from-tail call `arr.slice(-n)`: for
`n = 0` JavaScript evaluates `slice(-0) = slice(0)` and returns the whole
array; otherwise the last `n` elements (all of them when `n` exceeds the
length) are returned. -/
def jsSliceLast {α : Type} (l : List α) (n : Nat) : List α :=
  if n = 0 then l else l.drop (l.length - n)

/-- The last `n` elements of a list (specification-side helper). -/
def takeLast {α : Type} (l : List α) (n : Nat) : List α :=
  l.drop (l.length - n)

/-- Embedding of the `EventBuffer` class: a list of events plus the
configured capacity. -/
structure EventBuffer (α : Type) where
  events : List α
  maxSize : Nat
deriving DecidableEq

/-- A fresh buffer of capacity `maxSize` (`new EventBuffer(maxSize)`). -/
def EventBuffer.empty {α : Type} (maxSize : Nat) : EventBuffer α :=
  { events := [], maxSize := maxSize }

/-- Embedding of `EventBuffer.push`: append, then shift one element off the
front when the length exceeds the capacity. -/
def EventBuffer.push {α : Type} (b : EventBuffer α) (e : α) : EventBuffer α :=
  if b.maxSize < (b.events ++ [e]).length then { b with events := (b.events ++ [e]).tail }
  else { b with events := b.events ++ [e] }

/-- Embedding of `EventBuffer.getRecent(n)`: `this.events.slice(-n)`. -/
def EventBuffer.getRecent {α : Type} (b : EventBuffer α) (n : Nat) : List α :=
  jsSliceLast b.events n

/-- Embedding of the `length` getter. -/
def EventBuffer.length {α : Type} (b : EventBuffer α) : Nat :=
  b.events.length

/-- Embedding of `EventBuffer.clear`. -/
def EventBuffer.clear {α : Type} (b : EventBuffer α) : EventBuffer α :=
  { b with events := [] }

/-- Embedding of `EventBuffer.extract(fn, count)`: filter-map over the
stored events, then `slice(-count)`. -/
def EventBuffer.extract {α β : Type} (b : EventBuffer α)
    (fn : α → Option β) (count : Nat) : List β :=
  jsSliceLast (b.events.filterMap fn) count

/-- Appending a whole sequence of events, one `push` at a time. -/
def EventBuffer.pushAll {α : Type} (b : EventBuffer α) (es : List α) :
    EventBuffer α :=
  es.foldl EventBuffer.push b

/-! ## JSON values

Parsed JSON payloads (the values delivered by the NDJSON line decoder) are
modelled by `JsonValue`.  JavaScript objects are insertion-ordered key/value
lists; numbers are modelled as integers, which covers every numeric literal
the claims exercise. -/

inductive JsonValue : Type
  | null : JsonValue
  | bool : Bool → JsonValue
  | num : Int → JsonValue
  | str : String → JsonValue
  | arr : List JsonValue → JsonValue
  | obj : List (String × JsonValue) → JsonValue

/-- Property lookup `o[k]` on an object value (`none` on non-objects). -/
def getField (j : JsonValue) (k : String) : Option JsonValue :=
  match j with
  | .obj fields => (fields.find? (fun p => p.1 == k)).map (fun p => p.2)
  | _ => none

/-- The JavaScript test `typeof data === "object" && data !== null && "type" in data`
restricted to JSON values: only non-array objects can carry a `type` key. -/
def hasTypeField : JsonValue → Bool
  | .obj fields => (fields.find? (fun p => p.1 == ("type"))).isSome
  | _ => false

mutual

/-- JavaScript string coercion as applied by a template literal `${v}`. -/
def jsTemplateStr : JsonValue → String
  | .null => ("null")
  | .bool b => cond b ("true") ("false")
  | .num n => toString n
  | .str s => s
  | .arr xs => jsArrayJoin xs
  | .obj _ => ("[object Object]")

/-- `Array.prototype.toString`: elements joined with commas, null elements
rendered as the empty string. -/
def jsArrayJoin : List JsonValue → String
  | [] => ("")
  | [JsonValue.null] => ("")
  | [x] => jsTemplateStr x
  | JsonValue.null :: y :: rest => (",") ++ jsArrayJoin (y :: rest)
  | x :: y :: rest => jsTemplateStr x ++ (",") ++ jsArrayJoin (y :: rest)

end

/-- Escape of one character inside a JSON string literal (quote and
backslash; control characters do not occur in the modelled payloads). -/
def jsonEscapeChar (c : Char) : List Char :=
  if c = ('"') then [('\\'), ('"')]
  else if c = ('\\') then [('\\'), ('\\')]
  else [c]

/-- Escape of a string body for `JSON.stringify`. -/
def jsonEscape (s : String) : String :=
  String.mk (s.data.map jsonEscapeChar).flatten

mutual

/-- Model of `JSON.stringify` on JSON values. -/
def jsonStringify : JsonValue → String
  | .null => ("null")
  | .bool b => cond b ("true") ("false")
  | .num n => toString n
  | .str s => ("\"") ++ jsonEscape s ++ ("\"")
  | .arr xs => ("[") ++ jsonStringifyItems xs ++ ("]")
  | .obj fs => ("\x7b") ++ jsonStringifyFields fs ++ ("\x7d")

def jsonStringifyItems : List JsonValue → String
  | [] => ("")
  | [x] => jsonStringify x
  | x :: y :: rest => jsonStringify x ++ (",") ++ jsonStringifyItems (y :: rest)

def jsonStringifyFields : List (String × JsonValue) → String
  | [] => ("")
  | [(k, v)] => ("\"") ++ jsonEscape k ++ ("\":") ++ jsonStringify v
  | (k, v) :: f :: rest =>
      ("\"") ++ jsonEscape k ++ ("\":") ++ jsonStringify v ++ (",") ++
        jsonStringifyFields (f :: rest)

end

/-! ## Event parsers (stream-parser.ts of the two connectors) -/

namespace ClaudeCode

/-- Embedding of `parseEvent` (claude-code-mcp/src/stream-parser.ts) at the
value level: non-objects and objects without a `type` key are wrapped as
`{ type: "unknown", raw: data }`; every object carrying a `type` key is
returned unchanged (in the source, both the recognized `switch` cases and
the `default` case return `obj` itself). -/
def parseEvent (data : JsonValue) : JsonValue :=
  match data with
  | .obj fields =>
      match fields.find? (fun p => p.1 == ("type")) with
      | some _ => .obj fields
      | none => .obj [(("type"), .str ("unknown")), (("raw"), .obj fields)]
  | other => .obj [(("type"), .str ("unknown")), (("raw"), other)]

end ClaudeCode

namespace Codex

/-- The `KNOWN_TYPES` set of codex/src/stream-parser.ts. -/
def KNOWN_TYPES : List String :=
  [("thread.started"), ("turn.started"), ("turn.completed"), ("turn.failed"),
   ("item.started"), ("item.updated"), ("item.completed"), ("error")]

/-- The check `KNOWN_TYPES.has(obj.type as string)`: only a string tag can
be a member of the set. -/
def isKnownTag : JsonValue → Bool
  | .str s => KNOWN_TYPES.contains s
  | _ => false

/-- Embedding of `parseEvent` (codex/src/stream-parser.ts): non-objects and
objects without a `type` key become an error event with an `Unparseable
event` message; objects with an unrecognized tag become an error event with
an `Unknown event type` message (the rest of the payload is not carried
over); recognized objects are returned unchanged. -/
def parseEvent (data : JsonValue) : JsonValue :=
  match data with
  | .obj fields =>
      match fields.find? (fun p => p.1 == ("type")) with
      | some p =>
          if isKnownTag p.2 then .obj fields
          else .obj [(("type"), .str ("error")),
                     (("message"),
                      .str (("Unknown event type: ") ++ jsTemplateStr p.2))]
      | none =>
          .obj [(("type"), .str ("error")),
                (("message"),
                 .str (("Unparseable event: ") ++ jsonStringify (.obj fields)))]
  | other =>
      .obj [(("type"), .str ("error")),
            (("message"),
             .str (("Unparseable event: ") ++ jsonStringify other))]

end Codex

/-- The concrete input refuting claim C5 as stated. -/
def c5Input : JsonValue :=
  .obj [(("type"), .str ("foobar")), (("data"), .num 42)]

/-! ## Answer translation (claude-code-mcp permission-manager translateAnswer) -/

/-- String-level result of `parseAnswer` (the connectors call it on whole
answer strings). -/
structure AnswerPartsS where
  decision : String
  reason : Option String
deriving DecidableEq

/-- `parseAnswer` lifted to `String` via the character-level model. -/
def parseAnswerS (s : String) : AnswerPartsS :=
  { decision := String.mk (parseAnswer s.data).decision,
    reason := (parseAnswer s.data).reason.map (fun l => String.mk l) }

/-- The `QuestionType` union of claude-code-mcp/src/types.ts. -/
inductive QuestionType : Type
  | tool_approval
  | plan_approval
  | question
deriving DecidableEq

/-- The `behavior` discriminator of a permission response. -/
inductive Behavior : Type
  | allow
  | deny
deriving DecidableEq

/-- The `PermissionResponse` record
`{ behavior, message?, updatedInput? }`. -/
structure PermissionResponse where
  behavior : Behavior
  message : Option String
  updatedInput : Option (List (String × JsonValue))

/-- JavaScript object spread `{...o, k: v}`: an existing key is overwritten
in place, a new key is appended. -/
def setField (o : List (String × JsonValue)) (k : String) (v : JsonValue) :
    List (String × JsonValue) :=
  if o.any (fun p => p.1 == k) then
    o.map (fun p => if p.1 == k then (k, v) else p)
  else o ++ [(k, v)]

namespace ClaudeCode

/-- Embedding of `translateAnswer` (permission-manager.ts): parse every
answer; for tool approvals the first decision must be `allow`, for plan
approvals it must be `approve` (echoing the original input back), anything
else denies with the parsed reason; questions always allow and extend the
original input with the `answers` array. -/
def translateAnswer (t : QuestionType) (answers : List String)
    (originalInput : List (String × JsonValue)) : PermissionResponse :=
  let parsed := answers.map parseAnswerS
  match t with
  | .tool_approval =>
      let p := parsed.headD { decision := ("deny"), reason := none }
      if p.decision == ("allow") then
        { behavior := .allow, message := none, updatedInput := none }
      else
        { behavior := .deny, message := p.reason, updatedInput := none }
  | .plan_approval =>
      let p := parsed.headD { decision := ("reject"), reason := none }
      if p.decision == ("approve") then
        { behavior := .allow, message := none, updatedInput := some originalInput }
      else
        { behavior := .deny, message := p.reason, updatedInput := none }
  | .question =>
      { behavior := .allow, message := none,
        updatedInput :=
          some (setField originalInput ("answers")
            (.arr (answers.map (fun a => .str a)))) }

end ClaudeCode

/-! ## Session records and per-session operations

The mutable `Session` objects of the two session managers are modelled as
structures, and each handler of the source is modelled as a function from
the session record (plus the handler inputs) to the updated record.  The
opaque promise resolver of a pending question is not stored; resolving it
is modelled by the response value the operation hands to the approval path.
The process handle is modelled as `Option Unit` (live or absent). -/

/-- A `{question, options[]}` item shown to the operator. -/
structure QuestionItem where
  question : String
  options : List String
deriving DecidableEq

namespace ClaudeCode

/-- The `SessionStatus` union of claude-code-mcp/src/types.ts. -/
inductive SessionStatus : Type
  | active
  | awaiting_input
  | done
  | error
  | interrupted
deriving DecidableEq

/-- The `PendingQuestion` record (without its opaque `resolve` field). -/
structure PendingQuestion where
  id : String
  qtype : QuestionType
  toolName : String
  toolInput : List (String × JsonValue)
  questions : List QuestionItem

/-- The claude-code `Session` record, restricted to the fields the claims
concern (event buffer and tool-use list omitted). -/
structure Session where
  id : String
  status : SessionStatus
  process : Option Unit
  createdAt : Nat
  workingDirectory : String
  permissionMode : Option String
  pendingQuestion : Option PendingQuestion
  result : Option String
  error : Option String

/-- The session record built at the start of `startSession` (before the
process is attached): status `active`, no process, no pending question. -/
def newSession (tempId : String) (now : Nat) (wd : String) : Session :=
  { id := tempId, status := .active, process := none, createdAt := now,
    workingDirectory := wd, permissionMode := none, pendingQuestion := none,
    result := none, error := none }

/-- `session.process = child` after `spawnClaudeProcess` returns. -/
def attachProcess (s : Session) : Session :=
  { s with process := some () }

/-- The synchronous effect of `PermissionManager.handlePermissionRequest`
on the session: store the built question and set the status to
`awaiting_input` (the armed timer is modelled by `permissionTimeout`
below). -/
def handlePermissionRequest (s : Session) (q : PendingQuestion) : Session :=
  { s with pendingQuestion := some q, status := .awaiting_input }

/-- The timeout callback armed by `handlePermissionRequest`: it clears the
pending question and resolves the approval path with the timeout deny.  It
does not touch the session status. -/
def permissionTimeout (s : Session) : Session × PermissionResponse :=
  ({ s with pendingQuestion := none },
   { behavior := .deny, message := some ("Permission request timed out"),
     updatedInput := none })

/-- Session-level embedding of `respondToQuestion` combined with
`PermissionManager.resolveQuestion`: requires a pending question with a
matching id, translates the answers against the stored tool input, clears
the question and sets the status back to `active`; the translated response
is handed to the approval path. -/
def respondToQuestion (s : Session) (qid : String) (answers : List String) :
    Except String (Session × PermissionResponse) :=
  match s.pendingQuestion with
  | none => .error (("No pending question for session: ") ++ s.id)
  | some q =>
      if q.id == qid then
        .ok ({ s with pendingQuestion := none, status := .active },
             translateAnswer q.qtype answers q.toolInput)
      else
        .error (("Question ID mismatch. Expected: ") ++ q.id ++
          (", got: ") ++ qid)

/-- Rendering of the `number | null` exit code inside the template literal
of the exit handler. -/
def exitCodeStr : Option Int → String
  | some n => toString n
  | none => ("null")

/-- Embedding of `SessionManager.handleExit`: null the process handle; if
the status was not already terminal, derive it from the signal and exit
code. -/
def handleExit (s : Session) (code : Option Int) (signal : Option String) :
    Session :=
  if s.status = .active ∨ s.status = .awaiting_input then
    if signal = some ("SIGINT") then
      { s with process := none, status := .interrupted }
    else if code = some 0 then
      { s with process := none, status := .done }
    else
      { s with
        process := none,
        status := .error,
        error := some (("Process exited with code ") ++ exitCodeStr code) }
  else { s with process := none }

/-- Session-level embedding of `SessionManager.interruptSession`: requires
a live process, delivers SIGINT and sets the status to `interrupted` (the
process handle is left in place until the exit handler runs). -/
def interruptSession (s : Session) : Except String Session :=
  if s.process = none then
    .error (("Session ") ++ s.id ++ (" has no active process"))
  else .ok { s with status := .interrupted }

end ClaudeCode

namespace Codex

/-- The `SessionStatus` union of codex/src/types.ts. -/
inductive SessionStatus : Type
  | active
  | awaiting_approval
  | done
  | error
  | interrupted
deriving DecidableEq

/-- The codex `PendingQuestion` record (without its `resolve` field); the
`qtype` is the `classifyApproval` result string. -/
structure PendingQuestion where
  id : String
  qtype : String
  questions : List QuestionItem
deriving DecidableEq

/-- The codex `ApprovalResponse` record. -/
structure ApprovalResponse where
  approved : Bool
  reason : Option String
deriving DecidableEq

/-- The codex `Session` record, restricted to the fields the claims
concern. -/
structure Session where
  id : String
  status : SessionStatus
  process : Option Unit
  createdAt : Nat
  pendingQuestion : Option PendingQuestion
deriving DecidableEq

/-- The synchronous effect of `SessionManager.handleApprovalRequest`: store
the built question and set the status to `awaiting_approval`. -/
def handleApprovalRequest (s : Session) (q : PendingQuestion) : Session :=
  { s with pendingQuestion := some q, status := .awaiting_approval }

/-- The timeout callback registered in the question manager by
`handleApprovalRequest`: clear the pending question, set the status back to
`active`, and send the timeout deny to the approval path. -/
def approvalTimeout (s : Session) : Session × ApprovalResponse :=
  ({ s with pendingQuestion := none, status := .active },
   { approved := false, reason := some ("Approval timed out") })

end Codex

/-- A started claude-code session (fresh record with the spawned process
attached), used as concrete input by several theorems. -/
def sampleSession : ClaudeCode.Session :=
  ClaudeCode.attachProcess (ClaudeCode.newSession ("s1") 0 ("/work"))

/-- A concrete tool-approval question. -/
def sampleQuestion : ClaudeCode.PendingQuestion :=
  { id := ("req_1"), qtype := .tool_approval, toolName := ("Edit"),
    toolInput := [], questions := [] }

/-- A started codex session. -/
def cxSession : Codex.Session :=
  { id := ("t1"), status := .active, process := some (), createdAt := 0,
    pendingQuestion := none }

/-- A concrete codex approval question. -/
def cxQuestion : Codex.PendingQuestion :=
  { id := ("approval_1"), qtype := ("command_approval"), questions := [] }

/-- The claimed per-session invariant for claude-code sessions: no pending
question exactly when the status is not `awaiting_input`. -/
def ccQuestionInvariant (s : ClaudeCode.Session) : Prop :=
  s.pendingQuestion = none ↔ s.status ≠ ClaudeCode.SessionStatus.awaiting_input

/-- The claimed per-session invariant for codex sessions (whose
awaiting-input status is spelled `awaiting_approval`). -/
def cxQuestionInvariant (s : Codex.Session) : Prop :=
  s.pendingQuestion = none ↔ s.status ≠ Codex.SessionStatus.awaiting_approval

/-! ## Session store and permission lookup (claude-code SessionManager)

The `Map<string, Session>` of the session manager is modelled as an
insertion-ordered list of session records; the map key always equals the
record id (`handleEvent` rekeys both together), so map lookup is a search
by id. -/

namespace ClaudeCode

/-- `this.sessions.get(sid)`. -/
def storeGet (st : List Session) (sid : String) : Option Session :=
  st.find? (fun s => s.id == sid)

/-- `this.sessions.set(s.id, s)`: overwrite in place, or append a new key. -/
def storeSet (st : List Session) (s : Session) : List Session :=
  if st.any (fun t => t.id == s.id) then
    st.map (fun t => if t.id == s.id then s else t)
  else st ++ [s]

/-- Model of `s.startsWith(pre)` on the character lists of the strings. -/
def strStartsWith (s pre : String) : Bool :=
  pre.data.isPrefixOf s.data

/-- The temp-session test of the `__pending__` loop:
`session.id.startsWith("temp_") && session.status === "active"`. -/
def tempActive (s : Session) : Bool :=
  strStartsWith s.id ("temp_") && decide (s.status = SessionStatus.active)

/-- The fallback test: `status === "active" || status === "awaiting_input"`. -/
def activeOrAwaiting (s : Session) : Bool :=
  decide (s.status = SessionStatus.active) ||
    decide (s.status = SessionStatus.awaiting_input)

/-- One iteration of the fallback loop of `findSessionForPermission`:
replace the candidate only when the session is active-or-awaiting and
strictly more recently created (or when there is no candidate yet). -/
def latestStep : Option Session → Session → Option Session
  | none, s => if activeOrAwaiting s then some s else none
  | some l, s =>
      if activeOrAwaiting s then
        (if l.createdAt < s.createdAt then some s else some l)
      else some l

/-- The fallback loop of `findSessionForPermission` over the insertion
order of the store. -/
def latestGo (acc : Option Session) : List Session → Option Session
  | [] => acc
  | s :: rest => latestGo (latestStep acc s) rest

/-- Embedding of `SessionManager.findSessionForPermission`: exact id match;
else, for the `__pending__` sentinel, the first session in insertion order
with a temp id and status `active`; else the most recently created session
with status `active` or `awaiting_input`. -/
def findSessionForPermission (store : List Session) (pid : String) :
    Option Session :=
  match store.find? (fun s => s.id == pid) with
  | some s => some s
  | none =>
      match (if pid == ("__pending__") then store.find? tempActive
             else none) with
      | some s => some s
      | none => latestGo none store

end ClaudeCode

/-- Sessions used by the store-lookup theorems: two active temp-id sessions
(inserted in this order) and a finished session with a real id. -/
def c4TempA : ClaudeCode.Session :=
  ClaudeCode.newSession ("temp_a") 0 ("/w")

/-- The second, more recently inserted and more recently created active
temp-id session. -/
def c4TempB : ClaudeCode.Session :=
  ClaudeCode.newSession ("temp_b") 1 ("/w")

/-- A finished session with a real id. -/
def c4Done : ClaudeCode.Session :=
  { ClaudeCode.newSession ("real_1") 0 ("/w") with
    status := ClaudeCode.SessionStatus.done }

/-! ## Follow-up messages and status queries (claude-code SessionManager)

`sayToSession` is modelled as a function from the store to the updated
store plus an `Except` result: a thrown error carries the store as already
mutated, matching the in-place mutation of the source.  The asynchronous
interrupt-and-wait of a mid-session permission-mode change is collapsed to
its final state (process handle gone); its transient status is irrelevant
here because the subsequent resume overwrites the status. -/

namespace ClaudeCode

/-- `getActiveSessionCount`: sessions whose process handle is live. -/
def getActiveSessionCount (st : List Session) : Nat :=
  st.countP (fun s => s.process.isSome)

/-- The placeholder record created by `createTrackedSession`: status
`done`, no process (a later resume overrides both). -/
def trackedPlaceholder (sid : String) (now : Nat) (cwd : String) : Session :=
  { id := sid, status := .done, process := none, createdAt := now,
    workingDirectory := cwd, permissionMode := none,
    pendingQuestion := none, result := none, error := none }

/-- Embedding of `createTrackedSession`: insert a placeholder session with
status `done` and no process under the requested id, and return it. -/
def createTrackedSession (st : List Session) (sid : String) (now : Nat)
    (cwd : String) : List Session × Session :=
  (storeSet st (trackedPlaceholder sid now cwd),
   trackedPlaceholder sid now cwd)

/-- The capacity error thrown by `startSession` and `resumeSession`. -/
def capacityError (maxSessions : Nat) : String :=
  ("Maximum concurrent sessions (") ++ toString maxSessions ++ (") reached")

/-- Embedding of `resumeSession`: reject when the active-session count has
reached `maxSessions`, otherwise spawn a resume process (handle attached,
status `active`) and write the session back. -/
def resumeSession (maxSessions : Nat) (st : List Session) (s : Session) :
    List Session × Except String Session :=
  if maxSessions ≤ getActiveSessionCount st then
    (st, .error (capacityError maxSessions))
  else
    (storeSet st { s with process := some (), status := .active },
     .ok { s with process := some (), status := .active })

/-- The delivery decision of `sayToSession` after the session has been
looked up or created: live stdin, interrupt-then-resume on a mode change,
or plain resume. -/
def sayDeliver (maxSessions : Nat) (st : List Session) (session : Session)
    (permissionMode : Option String) :
    List Session × Except String (String × SessionStatus) :=
  let needsModeChange :=
    match permissionMode with
    | none => false
    | some m => decide (session.permissionMode ≠ some m)
  if session.process.isSome = true ∧ session.status = .active then
    if needsModeChange then
      let updated :=
        { session with process := none, permissionMode := permissionMode }
      match resumeSession maxSessions (storeSet st updated) updated with
      | (st3, .ok s3) => (st3, .ok (s3.id, s3.status))
      | (st3, .error e) => (st3, .error e)
    else
      (st, .ok (session.id, session.status))
  else
    let updated :=
      if needsModeChange then { session with permissionMode := permissionMode }
      else session
    match resumeSession maxSessions (storeSet st updated) updated with
    | (st3, .ok s3) => (st3, .ok (s3.id, s3.status))
    | (st3, .error e) => (st3, .error e)

/-- Embedding of `sayToSession`: look the session up, creating a tracked
placeholder for an unknown id, then deliver the message. -/
def sayToSession (maxSessions : Nat) (now : Nat) (cwd : String)
    (st : List Session) (sid : String) (permissionMode : Option String) :
    List Session × Except String (String × SessionStatus) :=
  match storeGet st sid with
  | some session => sayDeliver maxSessions st session permissionMode
  | none =>
      let created := createTrackedSession st sid now cwd
      sayDeliver maxSessions created.1 created.2 permissionMode

/-- Embedding of `getSessionStatus`, restricted to the id/status part of
the returned snapshot. -/
def getSessionStatus (st : List Session) (sid : String) :
    Except String (String × SessionStatus) :=
  match storeGet st sid with
  | none => .error (("Unknown session: ") ++ sid)
  | some s => .ok (s.id, s.status)

end ClaudeCode

/-! ## Theorems and supporting lemmas -/

/-! ### Lemmas about trimming and splitting -/

theorem takeWhile_append_all {p : Char → Bool} (l r : List Char)
    (h : ∀ c ∈ l, p c = true) :
    (l ++ r).takeWhile p = l ++ r.takeWhile p := by
  induction l with
  | nil => simp
  | cons a t ih =>
      have ha : p a = true := h a (by simp)
      simp [List.takeWhile_cons, ha]
      exact ih (fun c hc => h c (by simp [hc]))

theorem dropWhile_append_all {p : Char → Bool} (l r : List Char)
    (h : ∀ c ∈ l, p c = true) :
    (l ++ r).dropWhile p = r.dropWhile p := by
  induction l with
  | nil => simp
  | cons a t ih =>
      have ha : p a = true := h a (by simp)
      simp [List.dropWhile_cons, ha]
      exact ih (fun c hc => h c (by simp [hc]))

theorem jsTrim_cons_ws (c : Char) (r : List Char) (h : jsWhitespace c = true) :
    jsTrim (c :: r) = jsTrim r := by
  unfold jsTrim trimLeft
  simp [List.dropWhile_cons, h]

/-- Claim C9: the answer parser returns the trimmed whole input as decision
when no colon is present (so the empty string parses to an empty decision),
and otherwise splits at the first colon only, trimming both sides, so that
for colon-free, whitespace-trimmed `d` and trimmed `r` we get
`parse(d ++ ": " ++ r) = { decision := d, reason := r }` and
`parse(d) = { decision := d }`; colons inside the reason are preserved. -/
theorem c9_parse_answer :
    (parseAnswer [] = { decision := [], reason := none }) ∧
    (∀ s : List Char, (':') ∉ s →
      parseAnswer s = { decision := jsTrim s, reason := none }) ∧
    (∀ d r : List Char, jsTrim d = d → jsTrim r = r → (':') ∉ d →
      parseAnswer (d ++ (':') :: (' ') :: r) =
        { decision := d, reason := some r }) ∧
    (∀ d : List Char, jsTrim d = d → (':') ∉ d →
      parseAnswer d = { decision := d, reason := none }) := by
  refine ⟨rfl, ?_, ?_, ?_⟩
  · intro s hs
    simp [parseAnswer, hs]
  · intro d r hd hr hcolon
    have hmem : (':') ∈ d ++ (':') :: (' ') :: r := by simp
    have hall : ∀ c ∈ d, (c != (':')) = true := by
      intro c hc
      have : c ≠ (':') := fun he => hcolon (he ▸ hc)
      simpa [bne_iff_ne] using this
    have htake :
        (d ++ (':') :: (' ') :: r).takeWhile (fun c => c != (':')) = d := by
      rw [takeWhile_append_all _ _ hall]
      simp [List.takeWhile_cons]
    have hdrop :
        (d ++ (':') :: (' ') :: r).dropWhile (fun c => c != (':')) =
          (':') :: (' ') :: r := by
      rw [dropWhile_append_all _ _ hall]
      simp [List.dropWhile_cons]
    simp only [parseAnswer, if_pos hmem, htake, hdrop]
    have hws : jsWhitespace (' ') = true := by decide
    simp [List.drop, jsTrim_cons_ws (' ') r hws, hd, hr]
  · intro d hd hcolon
    simp [parseAnswer, hcolon, hd]

/-- Witness for C9 at a concrete input: parsing `"deny: to:o"` (built from
the trimmed, colon-free decision `deny` and the reason `to:o`, which itself
contains a colon) yields decision `deny` and reason `to:o`. -/
theorem c9_parse_answer_witness :
    parseAnswer ((("deny").toList) ++ (':') :: (' ') :: (("to:o").toList)) =
      { decision := ("deny").toList, reason := some (("to:o").toList) } :=
  c9_parse_answer.2.2.1 (("deny").toList) (("to:o").toList)
    (by decide) (by decide) (by decide)

/-! ### Lemmas about the ring buffer -/

theorem takeLast_zero {α : Type} (l : List α) : takeLast l 0 = [] := by
  simp [takeLast]

theorem takeLast_of_length_le {α : Type} (l : List α) (n : Nat)
    (h : l.length ≤ n) : takeLast l n = l := by
  simp [takeLast, Nat.sub_eq_zero_of_le h]

theorem takeLast_cons_of_le {α : Type} (a : α) (l : List α) (n : Nat)
    (h : n ≤ l.length) : takeLast (a :: l) n = takeLast l n := by
  unfold takeLast
  have hlen : (a :: l).length - n = (l.length - n) + 1 := by
    simp [List.length_cons]
    omega
  rw [hlen, List.drop_succ_cons]

theorem takeLast_takeLast {α : Type} (l : List α) (n m : Nat) (h : m ≤ n) :
    takeLast (takeLast l n) m = takeLast l m := by
  unfold takeLast
  rw [List.drop_drop, List.length_drop]
  congr 1
  omega

theorem EventBuffer.pushAll_events {α : Type} (k : Nat) (es l : List α)
    (h : l.length ≤ k) :
    (EventBuffer.pushAll { events := l, maxSize := k } es).events =
      takeLast (l ++ es) k := by
  induction es generalizing l with
  | nil =>
      simp [EventBuffer.pushAll, takeLast_of_length_le _ _ h]
  | cons e es ih =>
      show (EventBuffer.pushAll
        (EventBuffer.push { events := l, maxSize := k } e) es).events =
        takeLast (l ++ e :: es) k
      by_cases hlt : k < (l ++ [e]).length
      · have hpush : EventBuffer.push { events := l, maxSize := k } e =
            { events := (l ++ [e]).tail, maxSize := k } := by
          unfold EventBuffer.push
          rw [if_pos hlt]
        rw [hpush]
        have hlen2 : (l ++ [e]).tail.length ≤ k := by
          simp
          omega
        rw [ih _ hlen2]
        cases l with
        | nil =>
            have hk : k = 0 := by
              simp at hlt
              omega
            rw [hk]
            rw [takeLast_zero, takeLast_zero]
        | cons a t =>
            have htail : ((a :: t) ++ [e]).tail = t ++ [e] := rfl
            rw [htail]
            have hassoc : (t ++ [e]) ++ es = t ++ e :: es := by simp
            rw [hassoc]
            have hcons : (a :: t) ++ e :: es = a :: (t ++ e :: es) := rfl
            rw [hcons]
            have hk : k ≤ (t ++ e :: es).length := by
              simp at hlt ⊢
              omega
            exact (takeLast_cons_of_le a _ k hk).symm
      · have hpush : EventBuffer.push { events := l, maxSize := k } e =
            { events := l ++ [e], maxSize := k } := by
          unfold EventBuffer.push
          rw [if_neg hlt]
        rw [hpush]
        have hle : (l ++ [e]).length ≤ k := by
          simp at hlt ⊢
          omega
        rw [ih _ hle]
        have hassoc : (l ++ [e]) ++ es = l ++ e :: es := by simp
        rw [hassoc]

/-- Claim C7 (amended): after appending `es` to an empty ring buffer of
capacity `k`, the length is `min |es| k`; for every `m` with
`1 ≤ m ≤ length`, `getRecent m` is exactly the last `m` appended events in
insertion order; and `getRecent k` after at least `k` appends is the last
`k` appended events.  (The amendment excludes `m = 0`, where the JavaScript
`slice(-0)` returns the whole buffer.) -/
theorem c7_ring_history {α : Type} (k : Nat) (es : List α) (m : Nat)
    (h1 : 1 ≤ m)
    (h2 : m ≤ (EventBuffer.pushAll (EventBuffer.empty k) es).length) :
    (EventBuffer.pushAll (EventBuffer.empty k) es).length = min es.length k ∧
    (EventBuffer.pushAll (EventBuffer.empty k) es).getRecent m =
      takeLast es m ∧
    (k ≤ es.length →
      (EventBuffer.pushAll (EventBuffer.empty k) es).getRecent k =
        takeLast es k) := by
  have hev : (EventBuffer.pushAll (EventBuffer.empty k) es).events =
      takeLast es k := by
    have := EventBuffer.pushAll_events k es [] (by simp)
    simpa [EventBuffer.empty] using this
  have hlen : (EventBuffer.pushAll (EventBuffer.empty k) es).length =
      min es.length k := by
    rw [EventBuffer.length, hev]
    unfold takeLast
    rw [List.length_drop]
    omega
  refine ⟨hlen, ?_, ?_⟩
  · have hm0 : m ≠ 0 := by omega
    rw [EventBuffer.getRecent, jsSliceLast, if_neg hm0, hev]
    have hm : m ≤ min es.length k := by
      rw [hlen] at h2; exact h2
    show takeLast (takeLast es k) m = takeLast es m
    exact takeLast_takeLast es k m (le_trans hm (min_le_right _ _))
  · intro hk
    by_cases hk0 : k = 0
    · subst hk0
      rw [EventBuffer.getRecent, jsSliceLast, if_pos rfl, hev, takeLast_zero]
    · rw [EventBuffer.getRecent, jsSliceLast, if_neg hk0, hev]
      exact takeLast_takeLast es k k (le_refl k)

/-- Witness for C7 at a concrete input: capacity 2, three appends. -/
theorem c7_ring_history_witness :
    (EventBuffer.pushAll (EventBuffer.empty 2) ([10, 20, 30] : List Nat)).length
        = min ([10, 20, 30] : List Nat).length 2 ∧
    (EventBuffer.pushAll (EventBuffer.empty 2)
        ([10, 20, 30] : List Nat)).getRecent 2 =
      takeLast ([10, 20, 30] : List Nat) 2 :=
  ⟨(c7_ring_history 2 ([10, 20, 30] : List Nat) 2 (by decide) (by decide)).1,
   (c7_ring_history 2 ([10, 20, 30] : List Nat) 2 (by decide) (by decide)).2.1⟩

/-- Counterexample for C7 as stated: with capacity 3 and two appends the
current size is 2, so `m = 0` satisfies `m ≤ size`, yet `getRecent 0`
returns the entire buffer `[1, 2]` rather than the last 0 appended events
(the empty list), because `slice(-0)` is `slice(0)` in JavaScript. -/
theorem c7_ring_history_counterexample :
    (EventBuffer.pushAll (EventBuffer.empty 3) ([1, 2] : List Nat)).length = 2 ∧
    (EventBuffer.pushAll (EventBuffer.empty 3) ([1, 2] : List Nat)).getRecent 0
        = [1, 2] ∧
    takeLast ([1, 2] : List Nat) 0 = [] := by
  refine ⟨rfl, rfl, rfl⟩

/-- Claim C5 (amended): both parsers are total on delivered JSON values, and
the claude-code parser loses nothing: an object with a `type` key is
returned unchanged (whatever the tag), and any other value is wrapped as
`{ type: "unknown", raw: <original value> }`.  The codex parser, however,
maps an object whose string tag is not recognized to the error event
`{ type: "error", message: "Unknown event type: <tag>" }`, which depends
only on the tag, discarding the rest of the payload. -/
theorem c5_parse_event :
    (∀ fields : List (String × JsonValue), hasTypeField (.obj fields) = true →
      ClaudeCode.parseEvent (.obj fields) = .obj fields) ∧
    (∀ j : JsonValue, hasTypeField j = false →
      ClaudeCode.parseEvent j =
        .obj [(("type"), .str ("unknown")), (("raw"), j)]) ∧
    (∀ (fields : List (String × JsonValue)) (p : String × JsonValue),
      fields.find? (fun q => q.1 == ("type")) = some p →
      Codex.isKnownTag p.2 = false →
      Codex.parseEvent (.obj fields) =
        .obj [(("type"), .str ("error")),
              (("message"),
               .str (("Unknown event type: ") ++ jsTemplateStr p.2))]) := by
  refine ⟨?_, ?_, ?_⟩
  · intro fields h
    unfold ClaudeCode.parseEvent
    cases hfind : fields.find? (fun p => p.1 == ("type")) with
    | none => rw [hasTypeField, hfind] at h; simp at h
    | some p => simp [hfind]
  · intro j h
    cases j with
    | obj fields =>
        unfold ClaudeCode.parseEvent
        cases hfind : fields.find? (fun p => p.1 == ("type")) with
        | none => simp [hfind]
        | some p => rw [hasTypeField, hfind] at h; simp at h
    | null => rfl
    | bool b => rfl
    | num n => rfl
    | str s => rfl
    | arr xs => rfl
  · intro fields p hfind hknown
    unfold Codex.parseEvent
    simp [hfind, hknown]

/-- Witness for C5 at concrete inputs: the claude-code parser passes an
unrecognized-tag object through unchanged and wraps a bare string, and the
codex parser turns an unrecognized-tag object into the error event. -/
theorem c5_parse_event_witness :
    ClaudeCode.parseEvent
        (.obj [(("type"), .str ("custom_thing")), (("data"), .num 42)]) =
      .obj [(("type"), .str ("custom_thing")), (("data"), .num 42)] ∧
    ClaudeCode.parseEvent (.str ("hello")) =
      .obj [(("type"), .str ("unknown")), (("raw"), .str ("hello"))] ∧
    Codex.parseEvent (.obj [(("type"), .str ("zzz"))]) =
      .obj [(("type"), .str ("error")),
            (("message"),
             .str (("Unknown event type: ") ++ jsTemplateStr (.str ("zzz"))))] :=
  ⟨c5_parse_event.1 [(("type"), .str ("custom_thing")), (("data"), .num 42)] rfl,
   c5_parse_event.2.1 (.str ("hello")) rfl,
   c5_parse_event.2.2 [(("type"), .str ("zzz"))] (("type"), .str ("zzz")) rfl rfl⟩

/-- Counterexample for C5 as stated: the codex parser maps the JSON value
`{type: "foobar", data: 42}` (unrecognized tag) to an error event whose type
tag is `"error"`, not an Unknown event carrying the original tag, and the
`data` payload field is discarded. -/
theorem c5_parse_event_counterexample :
    Codex.parseEvent c5Input =
      .obj [(("type"), .str ("error")),
            (("message"), .str ("Unknown event type: foobar"))] ∧
    getField (Codex.parseEvent c5Input) ("data") = none ∧
    getField c5Input ("data") = some (.num 42) ∧
    getField (Codex.parseEvent c5Input) ("type") = some (.str ("error")) :=
  ⟨rfl, rfl, rfl, rfl⟩

/-! ### Lemmas about object-field update -/

theorem find?_mapReplace (k : String) (v : JsonValue) :
    ∀ o : List (String × JsonValue), o.any (fun p => p.1 == k) = true →
    (o.map (fun p => if p.1 == k then (k, v) else p)).find?
      (fun p => p.1 == k) = some (k, v) := by
  intro o
  induction o with
  | nil => intro h; simp at h
  | cons p t ih =>
      intro h
      by_cases hp : (p.1 == k) = true
      · simp only [List.map_cons, if_pos hp]
        exact List.find?_cons_of_pos _ (by simp)
      · simp only [List.map_cons, if_neg hp]
        rw [List.find?_cons_of_neg _ (by simp [hp])]
        refine ih ?_
        simp only [List.any_cons, hp, Bool.false_or] at h
        exact h

theorem find?_append_of_none {α : Type} (p : α → Bool) (l r : List α)
    (h : l.find? p = none) : (l ++ r).find? p = r.find? p := by
  induction l with
  | nil => simp
  | cons a t ih =>
      by_cases ha : p a = true
      · rw [List.find?_cons_of_pos _ ha] at h; simp at h
      · rw [List.find?_cons_of_neg _ (by simp [ha])] at h
        rw [List.cons_append, List.find?_cons_of_neg _ (by simp [ha])]
        exact ih h

theorem find?_append_left {α : Type} (p : α → Bool) (l r : List α)
    (a : α) (h : l.find? p = some a) : (l ++ r).find? p = some a := by
  induction l with
  | nil => simp at h
  | cons x t ih =>
      by_cases hx : p x = true
      · rw [List.find?_cons_of_pos _ hx] at h
        rw [List.cons_append, List.find?_cons_of_pos _ hx]
        exact h
      · rw [List.find?_cons_of_neg _ (by simp [hx])] at h
        rw [List.cons_append, List.find?_cons_of_neg _ (by simp [hx])]
        exact ih h

theorem getField_setField_same (o : List (String × JsonValue)) (k : String)
    (v : JsonValue) : getField (.obj (setField o k v)) k = some v := by
  show ((setField o k v).find? (fun p => p.1 == k)).map (fun p => p.2) = some v
  unfold setField
  by_cases h : o.any (fun p => p.1 == k) = true
  · rw [if_pos h, find?_mapReplace k v o h]
    rfl
  · rw [if_neg h]
    have hn : o.find? (fun p => p.1 == k) = none := by
      rw [List.find?_eq_none]
      intro x hx hpx
      exact h (List.any_of_mem hx hpx)
    rw [find?_append_of_none _ _ _ hn, List.find?_cons_of_pos _ (by simp)]
    rfl

theorem find?_cons_true {α : Type} (f : α → Bool) (a : α) (l : List α)
    (h : f a = true) : (a :: l).find? f = some a := by
  simp [List.find?, h]

theorem find?_cons_false {α : Type} (f : α → Bool) (a : α) (l : List α)
    (h : f a = false) : (a :: l).find? f = l.find? f := by
  simp [List.find?, h]

theorem find?_mapReplace_other (k q : String) (v : JsonValue)
    (hkq : (k == q) = false) :
    ∀ o : List (String × JsonValue),
      (o.map (fun p => if p.1 == k then (k, v) else p)).find?
        (fun p => p.1 == q) = o.find? (fun p => p.1 == q) := by
  intro o
  induction o with
  | nil => rfl
  | cons p t ih =>
      by_cases hp : (p.1 == k) = true
      · have hpq : (p.1 == q) = false := by
          have he : p.1 = k := beq_iff_eq.mp hp
          rw [he]; exact hkq
        simp only [List.map_cons, if_pos hp]
        rw [find?_cons_false (fun r => r.1 == q) ((k, v)) _ (by simp [hkq]),
          find?_cons_false (fun r => r.1 == q) p t (by simp [hpq])]
        exact ih
      · simp only [List.map_cons, if_neg hp]
        by_cases hpq : (p.1 == q) = true
        · rw [find?_cons_true (fun r => r.1 == q) p _ (by simp [hpq]),
            find?_cons_true (fun r => r.1 == q) p t (by simp [hpq])]
        · rw [find?_cons_false (fun r => r.1 == q) p _ (by simp [hpq]),
            find?_cons_false (fun r => r.1 == q) p t (by simp [hpq])]
          exact ih

theorem getField_setField_other (o : List (String × JsonValue)) (k : String)
    (v : JsonValue) (q : String) (hq : (q == k) = false) :
    getField (.obj (setField o k v)) q = getField (.obj o) q := by
  have hkq : (k == q) = false := by
    refine Bool.eq_false_iff.mpr ?_
    intro hk
    exact (Bool.eq_false_iff.mp hq) (by rw [beq_iff_eq] at hk ⊢; exact hk.symm)
  show ((setField o k v).find? (fun p => p.1 == q)).map (fun p => p.2) =
    (o.find? (fun p => p.1 == q)).map (fun p => p.2)
  unfold setField
  by_cases h : o.any (fun p => p.1 == k) = true
  · rw [if_pos h, find?_mapReplace_other k q v hkq o]
  · rw [if_neg h]
    congr 1
    cases hfind : o.find? (fun p => p.1 == q) with
    | some p => exact find?_append_left _ _ _ _ hfind
    | none =>
        rw [find?_append_of_none _ _ _ hfind,
          find?_cons_false (fun r => r.1 == q) ((k, v)) [] (by simp [hkq])]
        rfl

/-- Claim C8: answer translation.  For tool approvals, a first parsed
decision of `allow` yields `{behavior: allow}` and anything else denies
with the parsed reason as message; for plan approvals, `approve` yields
`{behavior: allow, updatedInput: original}` and anything else denies with
the reason; for questions the translation always allows, and the updated
input carries the operator answers under the `answers` key while leaving
every other key of the original input unchanged. -/
theorem c8_translate_answer :
    (∀ (a : String) (rest : List String) (input : List (String × JsonValue)),
      (parseAnswerS a).decision = ("allow") →
      ClaudeCode.translateAnswer .tool_approval (a :: rest) input =
        { behavior := .allow, message := none, updatedInput := none }) ∧
    (∀ (a : String) (rest : List String) (input : List (String × JsonValue)),
      (parseAnswerS a).decision ≠ ("allow") →
      ClaudeCode.translateAnswer .tool_approval (a :: rest) input =
        { behavior := .deny, message := (parseAnswerS a).reason,
          updatedInput := none }) ∧
    (∀ (a : String) (rest : List String) (input : List (String × JsonValue)),
      (parseAnswerS a).decision = ("approve") →
      ClaudeCode.translateAnswer .plan_approval (a :: rest) input =
        { behavior := .allow, message := none, updatedInput := some input }) ∧
    (∀ (a : String) (rest : List String) (input : List (String × JsonValue)),
      (parseAnswerS a).decision ≠ ("approve") →
      ClaudeCode.translateAnswer .plan_approval (a :: rest) input =
        { behavior := .deny, message := (parseAnswerS a).reason,
          updatedInput := none }) ∧
    (∀ (answers : List String) (input : List (String × JsonValue)),
      (ClaudeCode.translateAnswer .question answers input).behavior =
        .allow ∧
      ∃ u, (ClaudeCode.translateAnswer .question answers input).updatedInput =
          some u ∧
        getField (.obj u) ("answers") =
          some (.arr (answers.map (fun a => .str a))) ∧
        (∀ q, (q == ("answers")) = false →
          getField (.obj u) q = getField (.obj input) q)) := by
  refine ⟨?_, ?_, ?_, ?_, ?_⟩
  · intro a rest input h
    have hb : ((parseAnswerS a).decision == ("allow")) = true := by
      rw [beq_iff_eq]; exact h
    simp [ClaudeCode.translateAnswer, hb]
  · intro a rest input h
    have hb : ((parseAnswerS a).decision == ("allow")) = false :=
      Bool.eq_false_iff.mpr (fun hk => h (beq_iff_eq.mp hk))
    simp [ClaudeCode.translateAnswer, hb]
  · intro a rest input h
    have hb : ((parseAnswerS a).decision == ("approve")) = true := by
      rw [beq_iff_eq]; exact h
    simp [ClaudeCode.translateAnswer, hb]
  · intro a rest input h
    have hb : ((parseAnswerS a).decision == ("approve")) = false :=
      Bool.eq_false_iff.mpr (fun hk => h (beq_iff_eq.mp hk))
    simp [ClaudeCode.translateAnswer, hb]
  · intro answers input
    refine ⟨rfl, setField input ("answers")
      (.arr (answers.map (fun a => .str a))), rfl, ?_, ?_⟩
    · exact getField_setField_same input ("answers") _
    · intro q hq
      exact getField_setField_other input ("answers") _ q hq

/-- Witness for C8 at concrete inputs: answering `allow` to a tool
approval, `reject: needs tests` to a plan approval, and two answers to a
question. -/
theorem c8_translate_answer_witness :
    ClaudeCode.translateAnswer .tool_approval [("allow")] [] =
      { behavior := .allow, message := none, updatedInput := none } ∧
    ClaudeCode.translateAnswer .plan_approval [("reject: needs tests")] [] =
      { behavior := .deny,
        message := (parseAnswerS ("reject: needs tests")).reason,
        updatedInput := none } ∧
    (ClaudeCode.translateAnswer .question [("OAuth2"), ("Yes")]
      [(("questions"), .arr [])]).behavior = .allow :=
  ⟨c8_translate_answer.1 ("allow") [] [] (by decide),
   c8_translate_answer.2.2.2.1 ("reject: needs tests") [] [] (by decide),
   (c8_translate_answer.2.2.2.2 [("OAuth2"), ("Yes")]
     [(("questions"), .arr [])]).1⟩

/-- Claim C1 (code bug), evaluated at the failing input: when the timeout
of a pending claude-code question fires, the code clears the pending
question and resolves the approval path with a deny whose message says the
request timed out, but it leaves the session status at `awaiting_input`
instead of setting it to `active`; the codex connector performs exactly the
claimed transition (question cleared, status `active`, timeout deny). -/
theorem c1_timeout_auto_deny :
    ((ClaudeCode.permissionTimeout
      (ClaudeCode.handlePermissionRequest sampleSession
        sampleQuestion)).1.pendingQuestion = none) ∧
    ((ClaudeCode.permissionTimeout
      (ClaudeCode.handlePermissionRequest sampleSession
        sampleQuestion)).1.status = ClaudeCode.SessionStatus.awaiting_input) ∧
    (ClaudeCode.SessionStatus.awaiting_input ≠
      ClaudeCode.SessionStatus.active) ∧
    ((ClaudeCode.permissionTimeout
      (ClaudeCode.handlePermissionRequest sampleSession
        sampleQuestion)).2.behavior = Behavior.deny) ∧
    ((ClaudeCode.permissionTimeout
      (ClaudeCode.handlePermissionRequest sampleSession
        sampleQuestion)).2.message =
      some ("Permission request timed out")) ∧
    ((Codex.approvalTimeout
      (Codex.handleApprovalRequest cxSession cxQuestion)).1.pendingQuestion
        = none) ∧
    ((Codex.approvalTimeout
      (Codex.handleApprovalRequest cxSession cxQuestion)).1.status =
      Codex.SessionStatus.active) ∧
    ((Codex.approvalTimeout
      (Codex.handleApprovalRequest cxSession cxQuestion)).2 =
      { approved := false, reason := some ("Approval timed out") }) :=
  ⟨rfl, rfl, by decide, rfl, rfl, rfl, rfl, rfl⟩

/-- Claim C2 (amended): the pending-question/status equivalence holds after
session creation, process attachment, question registration and every
successful respond, and the codex timeout re-establishes it; it is however
violated by the claude-code timeout (which leaves `awaiting_input` with a
null question) and by exit-handler runs while a question is pending (see
the counterexample). -/
theorem c2_question_invariant_partial :
    (∀ tempId now wd,
      ccQuestionInvariant (ClaudeCode.newSession tempId now wd)) ∧
    (∀ s, ccQuestionInvariant s →
      ccQuestionInvariant (ClaudeCode.attachProcess s)) ∧
    (∀ s q, ccQuestionInvariant (ClaudeCode.handlePermissionRequest s q)) ∧
    (∀ s qid answers s' resp,
      ClaudeCode.respondToQuestion s qid answers = .ok (s', resp) →
      ccQuestionInvariant s') ∧
    (∀ s q, cxQuestionInvariant (Codex.handleApprovalRequest s q)) ∧
    (∀ s, cxQuestionInvariant (Codex.approvalTimeout s).1) := by
  refine ⟨?_, ?_, ?_, ?_, ?_, ?_⟩
  · intro tempId now wd
    simp [ccQuestionInvariant, ClaudeCode.newSession]
  · intro s h
    simpa [ccQuestionInvariant, ClaudeCode.attachProcess] using h
  · intro s q
    simp [ccQuestionInvariant, ClaudeCode.handlePermissionRequest]
  · intro s qid answers s' resp h
    unfold ClaudeCode.respondToQuestion at h
    split at h
    · exact Except.noConfusion h
    · split at h
      · simp only [Except.ok.injEq, Prod.mk.injEq] at h
        rw [← h.1]
        simp [ccQuestionInvariant]
      · exact Except.noConfusion h
  · intro s q
    simp [cxQuestionInvariant, Codex.handleApprovalRequest]
  · intro s
    simp [cxQuestionInvariant, Codex.approvalTimeout]

/-- Witness for C2 at a concrete input: responding `allow` to the pending
question of a started session yields back the started session itself, on
which the invariant holds. -/
theorem c2_question_invariant_witness : ccQuestionInvariant sampleSession :=
  c2_question_invariant_partial.2.2.2.1
    (ClaudeCode.handlePermissionRequest sampleSession sampleQuestion)
    ("req_1") [("allow")] sampleSession
    (ClaudeCode.translateAnswer .tool_approval [("allow")] []) rfl

/-- Counterexample for C2 as stated: at two externally observable moments
the equivalence fails on the code.  After the claude-code permission
timeout fires on a session with a pending question, the pending question is
null while the status is still `awaiting_input`; and after the exit handler
runs while a question is pending, the question is still present while the
status is terminal. -/
theorem c2_question_invariant_counterexample :
    ¬ ccQuestionInvariant (ClaudeCode.permissionTimeout
      (ClaudeCode.handlePermissionRequest sampleSession sampleQuestion)).1 ∧
    ¬ ccQuestionInvariant (ClaudeCode.handleExit
      (ClaudeCode.handlePermissionRequest sampleSession sampleQuestion)
      (some 0) none) := by
  constructor
  · intro h
    exact (h.mp rfl) rfl
  · intro h
    have hpending := h.mpr (by decide)
    exact Option.noConfusion hpending

/-! ### Claim C3: terminal status and the process handle -/

theorem ClaudeCode.handleExit_process (s : ClaudeCode.Session)
    (code : Option Int) (signal : Option String) :
    (ClaudeCode.handleExit s code signal).process = none := by
  unfold ClaudeCode.handleExit
  by_cases ha : s.status = .active ∨ s.status = .awaiting_input
  · rw [if_pos ha]
    by_cases hs : signal = some ("SIGINT")
    · rw [if_pos hs]
    · rw [if_neg hs]
      by_cases hc : code = some 0
      · rw [if_pos hc]
      · rw [if_neg hc]
  · rw [if_neg ha]

/-- Claim C3 (amended): whenever the exit handler runs, the process handle
is nulled, so in particular any terminal status produced by an
exit-handler run coexists only with a null handle; the implication does not
hold at every observable moment, because `interruptSession` and
Result-driven terminal statuses leave the handle in place until exit (see
the counterexample). -/
theorem c3_terminal_implies_no_process (s : ClaudeCode.Session)
    (code : Option Int) (signal : Option String) :
    (ClaudeCode.handleExit s code signal).process = none ∧
    ((ClaudeCode.handleExit s code signal).status =
        ClaudeCode.SessionStatus.done ∨
      (ClaudeCode.handleExit s code signal).status =
        ClaudeCode.SessionStatus.error ∨
      (ClaudeCode.handleExit s code signal).status =
        ClaudeCode.SessionStatus.interrupted →
      (ClaudeCode.handleExit s code signal).process = none) :=
  ⟨ClaudeCode.handleExit_process s code signal,
   fun _ => ClaudeCode.handleExit_process s code signal⟩

/-- Witness for C3 at a concrete input: a clean exit of the started session
ends with status `done` and a null process handle. -/
theorem c3_terminal_implies_no_process_witness :
    (ClaudeCode.handleExit sampleSession (some 0) none).process = none :=
  (c3_terminal_implies_no_process sampleSession (some 0) none).2 (Or.inl rfl)

/-- Counterexample for C3 as stated: interrupting the started session (an
externally observable tool operation) sets the status to `interrupted`
while the process handle is still live. -/
theorem c3_terminal_implies_no_process_counterexample :
    ClaudeCode.interruptSession sampleSession =
      .ok { sampleSession with status := ClaudeCode.SessionStatus.interrupted } ∧
    ({ sampleSession with
       status := ClaudeCode.SessionStatus.interrupted }).status =
      ClaudeCode.SessionStatus.interrupted ∧
    ({ sampleSession with
       status := ClaudeCode.SessionStatus.interrupted }).process = some () :=
  ⟨rfl, rfl, rfl⟩

/-! ### Claim C6: the exit handler -/

/-- Claim C6 (amended): the exit handler always nulls the process handle;
a status already made terminal by a prior Result event is preserved;
otherwise SIGINT yields `interrupted`, exit code 0 yields `done`, and any
other exit yields `error` with message `Process exited with code <code>`
(capital P — the claim quoted the message with a lowercase p). -/
theorem c6_handle_exit (s : ClaudeCode.Session) (code : Option Int)
    (signal : Option String) :
    ((ClaudeCode.handleExit s code signal).process = none) ∧
    (s.status = ClaudeCode.SessionStatus.done ∨
      s.status = ClaudeCode.SessionStatus.error ∨
      s.status = ClaudeCode.SessionStatus.interrupted →
      (ClaudeCode.handleExit s code signal).status = s.status) ∧
    ((s.status = ClaudeCode.SessionStatus.active ∨
      s.status = ClaudeCode.SessionStatus.awaiting_input) →
      signal = some ("SIGINT") →
      (ClaudeCode.handleExit s code signal).status =
        ClaudeCode.SessionStatus.interrupted) ∧
    ((s.status = ClaudeCode.SessionStatus.active ∨
      s.status = ClaudeCode.SessionStatus.awaiting_input) →
      signal ≠ some ("SIGINT") → code = some 0 →
      (ClaudeCode.handleExit s code signal).status =
        ClaudeCode.SessionStatus.done) ∧
    ((s.status = ClaudeCode.SessionStatus.active ∨
      s.status = ClaudeCode.SessionStatus.awaiting_input) →
      signal ≠ some ("SIGINT") → code ≠ some 0 →
      (ClaudeCode.handleExit s code signal).status =
        ClaudeCode.SessionStatus.error ∧
      (ClaudeCode.handleExit s code signal).error =
        some (("Process exited with code ") ++ ClaudeCode.exitCodeStr code)) := by
  refine ⟨ClaudeCode.handleExit_process s code signal, ?_, ?_, ?_, ?_⟩
  · intro h
    have hna : ¬ (s.status = ClaudeCode.SessionStatus.active ∨
        s.status = ClaudeCode.SessionStatus.awaiting_input) := by
      rcases h with h | h | h <;> rw [h] <;> decide
    unfold ClaudeCode.handleExit
    rw [if_neg hna]
  · intro ha hs
    unfold ClaudeCode.handleExit
    rw [if_pos ha, if_pos hs]
  · intro ha hs hc
    unfold ClaudeCode.handleExit
    rw [if_pos ha, if_neg hs, if_pos hc]
  · intro ha hs hc
    unfold ClaudeCode.handleExit
    rw [if_pos ha, if_neg hs, if_neg hc]
    exact ⟨rfl, rfl⟩

/-- Witness for C6 at concrete inputs: the four interesting arms evaluated
on the started session (and on a `done` session for preservation). -/
theorem c6_handle_exit_witness :
    (ClaudeCode.handleExit sampleSession none (some ("SIGINT"))).status =
      ClaudeCode.SessionStatus.interrupted ∧
    (ClaudeCode.handleExit sampleSession (some 0) none).status =
      ClaudeCode.SessionStatus.done ∧
    ((ClaudeCode.handleExit sampleSession (some 3) none).status =
      ClaudeCode.SessionStatus.error ∧
     (ClaudeCode.handleExit sampleSession (some 3) none).error =
      some (("Process exited with code ") ++ ClaudeCode.exitCodeStr (some 3))) ∧
    (ClaudeCode.handleExit
        { sampleSession with status := ClaudeCode.SessionStatus.done }
        (some 1) none).status =
      ({ sampleSession with
         status := ClaudeCode.SessionStatus.done }).status :=
  ⟨(c6_handle_exit sampleSession none (some ("SIGINT"))).2.2.1
      (Or.inl rfl) rfl,
   (c6_handle_exit sampleSession (some 0) none).2.2.2.1
      (Or.inl rfl) (by simp) rfl,
   (c6_handle_exit sampleSession (some 3) none).2.2.2.2
      (Or.inl rfl) (by simp) (by simp),
   (c6_handle_exit
      { sampleSession with status := ClaudeCode.SessionStatus.done }
      (some 1) none).2.1 (Or.inl rfl)⟩

/-- Counterexample for C6 as stated: the error message written by the code
starts with a capital P (`Process exited with code 3`), not the lowercase
`process exited with code 3` quoted in the claim. -/
theorem c6_handle_exit_counterexample :
    (ClaudeCode.handleExit sampleSession (some 3) none).error =
      some ("Process exited with code 3") ∧
    (ClaudeCode.handleExit sampleSession (some 3) none).error ≠
      some ("process exited with code 3") := by
  refine ⟨rfl, by decide⟩

/-! ### Lemmas about the fallback loop -/

theorem latestStep_some_cases (acc : Option ClaudeCode.Session)
    (s b : ClaudeCode.Session) (h : ClaudeCode.latestStep acc s = some b) :
    (b = s ∧ ClaudeCode.activeOrAwaiting s = true) ∨ acc = some b := by
  cases acc with
  | none =>
      simp only [ClaudeCode.latestStep] at h
      by_cases hact : ClaudeCode.activeOrAwaiting s = true
      · rw [if_pos hact] at h
        cases h
        exact Or.inl ⟨rfl, hact⟩
      · rw [if_neg hact] at h
        exact Option.noConfusion h
  | some l =>
      simp only [ClaudeCode.latestStep] at h
      by_cases hact : ClaudeCode.activeOrAwaiting s = true
      · rw [if_pos hact] at h
        by_cases hlt : l.createdAt < s.createdAt
        · rw [if_pos hlt] at h
          cases h
          exact Or.inl ⟨rfl, hact⟩
        · rw [if_neg hlt] at h
          exact Or.inr h
      · rw [if_neg hact] at h
        exact Or.inr h

theorem latestStep_mono (acc : Option ClaudeCode.Session)
    (s b0 : ClaudeCode.Session) (h : acc = some b0) :
    ∃ b, ClaudeCode.latestStep acc s = some b ∧
      b0.createdAt ≤ b.createdAt := by
  subst h
  simp only [ClaudeCode.latestStep]
  by_cases hact : ClaudeCode.activeOrAwaiting s = true
  · rw [if_pos hact]
    by_cases hlt : b0.createdAt < s.createdAt
    · rw [if_pos hlt]
      exact ⟨s, rfl, Nat.le_of_lt hlt⟩
    · rw [if_neg hlt]
      exact ⟨b0, rfl, Nat.le_refl _⟩
  · rw [if_neg hact]
    exact ⟨b0, rfl, Nat.le_refl _⟩

theorem latestStep_active (acc : Option ClaudeCode.Session)
    (s : ClaudeCode.Session) (hact : ClaudeCode.activeOrAwaiting s = true) :
    ∃ b, ClaudeCode.latestStep acc s = some b ∧
      s.createdAt ≤ b.createdAt := by
  cases acc with
  | none =>
      simp only [ClaudeCode.latestStep]
      rw [if_pos hact]
      exact ⟨s, rfl, Nat.le_refl _⟩
  | some l =>
      simp only [ClaudeCode.latestStep]
      rw [if_pos hact]
      by_cases hlt : l.createdAt < s.createdAt
      · rw [if_pos hlt]
        exact ⟨s, rfl, Nat.le_refl _⟩
      · rw [if_neg hlt]
        exact ⟨l, rfl, Nat.le_of_not_lt hlt⟩

theorem latestGo_spec :
    ∀ (l : List ClaudeCode.Session) (acc : Option ClaudeCode.Session)
      (a : ClaudeCode.Session),
      ClaudeCode.latestGo acc l = some a →
      (acc = some a ∨ (a ∈ l ∧ ClaudeCode.activeOrAwaiting a = true)) ∧
      (∀ t ∈ l, ClaudeCode.activeOrAwaiting t = true →
        t.createdAt ≤ a.createdAt) ∧
      (∀ b, acc = some b → b.createdAt ≤ a.createdAt) := by
  intro l
  induction l with
  | nil =>
      intro acc a h
      refine ⟨Or.inl h, by simp, ?_⟩
      intro b hb
      rw [hb] at h
      cases h
      exact Nat.le_refl _
  | cons s rest ih =>
      intro acc a h
      have hstep : ClaudeCode.latestGo (ClaudeCode.latestStep acc s) rest =
          some a := h
      obtain ⟨h1, h2, h3⟩ := ih (ClaudeCode.latestStep acc s) a hstep
      refine ⟨?_, ?_, ?_⟩
      · rcases h1 with h1 | h1
        · rcases latestStep_some_cases acc s a h1 with ⟨rfl, hact⟩ | hacc
          · exact Or.inr ⟨List.mem_cons_self _ _, hact⟩
          · exact Or.inl hacc
        · exact Or.inr ⟨List.mem_cons_of_mem _ h1.1, h1.2⟩
      · intro t ht hta
        rcases List.mem_cons.mp ht with rfl | ht
        · obtain ⟨b, hb, hle⟩ := latestStep_active acc t hta
          exact Nat.le_trans hle (h3 b hb)
        · exact h2 t ht hta
      · intro b0 hb0
        obtain ⟨b, hb, hle⟩ := latestStep_mono acc s b0 hb0
        exact Nat.le_trans hle (h3 b hb)

theorem latestGo_isSome :
    ∀ (l : List ClaudeCode.Session) (acc : Option ClaudeCode.Session),
      ((∃ t ∈ l, ClaudeCode.activeOrAwaiting t = true) ∨ acc.isSome = true) →
      (ClaudeCode.latestGo acc l).isSome = true := by
  intro l
  induction l with
  | nil =>
      intro acc h
      rcases h with ⟨t, ht, _⟩ | h
      · simp at ht
      · exact h
  | cons s rest ih =>
      intro acc h
      show (ClaudeCode.latestGo (ClaudeCode.latestStep acc s) rest).isSome
        = true
      by_cases hact : ClaudeCode.activeOrAwaiting s = true
      · obtain ⟨b, hb, _⟩ := latestStep_active acc s hact
        exact ih _ (Or.inr (by rw [hb]; rfl))
      · refine ih _ ?_
        rcases h with ⟨t, ht, hta⟩ | h
        · rcases List.mem_cons.mp ht with rfl | ht
          · exact absurd hta hact
          · exact Or.inl ⟨t, ht, hta⟩
        · cases hacc : acc with
          | none => rw [hacc] at h; simp at h
          | some l0 =>
              refine Or.inr ?_
              have : ClaudeCode.latestStep (some l0) s = some l0 := by
                simp only [ClaudeCode.latestStep]
                rw [if_neg hact]
              rw [this]
              rfl

theorem latestGo_none_of_inactive :
    ∀ l : List ClaudeCode.Session,
      (∀ t ∈ l, ClaudeCode.activeOrAwaiting t = false) →
      ClaudeCode.latestGo none l = none := by
  intro l
  induction l with
  | nil => intro h; rfl
  | cons s rest ih =>
      intro h
      show ClaudeCode.latestGo (ClaudeCode.latestStep none s) rest = none
      have hs : ClaudeCode.latestStep none s = none := by
        simp only [ClaudeCode.latestStep]
        rw [if_neg (by rw [h s (List.mem_cons_self _ _)]; simp)]
      rw [hs]
      exact ih (fun t ht => h t (List.mem_cons_of_mem _ ht))

/-- Claim C4 (amended): `findSessionForPermission` resolves a permission
label by (a) exact id match; (b) otherwise, when the label is the
`__pending__` sentinel, the earliest-inserted session whose id is still a
temp id and whose status is `active` (not the most recently inserted one);
(c) otherwise the most recently created session whose status is `active`
or `awaiting_input` (strict maximum of `createdAt`); (d) `none` when no
session qualifies. -/
theorem c4_find_session_for_permission :
    (∀ (store : List ClaudeCode.Session) (pid : String)
      (s : ClaudeCode.Session), s ∈ store → s.id = pid →
      ∃ r, ClaudeCode.findSessionForPermission store pid = some r ∧
        r ∈ store ∧ r.id = pid) ∧
    (∀ (pre post : List ClaudeCode.Session) (s : ClaudeCode.Session),
      (∀ t ∈ pre ++ s :: post, (t.id == ("__pending__")) = false) →
      (∀ t ∈ pre, ClaudeCode.tempActive t = false) →
      ClaudeCode.tempActive s = true →
      ClaudeCode.findSessionForPermission (pre ++ s :: post)
        ("__pending__") = some s) ∧
    (∀ (store : List ClaudeCode.Session) (pid : String)
      (s : ClaudeCode.Session),
      (∀ t ∈ store, (t.id == pid) = false) →
      (pid = ("__pending__") → ∀ t ∈ store, ClaudeCode.tempActive t = false) →
      s ∈ store → ClaudeCode.activeOrAwaiting s = true →
      (∀ t ∈ store, ClaudeCode.activeOrAwaiting t = true →
        t.createdAt ≤ s.createdAt) →
      (∀ t ∈ store, t ≠ s → ClaudeCode.activeOrAwaiting t = true →
        t.createdAt < s.createdAt) →
      ClaudeCode.findSessionForPermission store pid = some s) ∧
    (∀ (store : List ClaudeCode.Session) (pid : String),
      (∀ t ∈ store, (t.id == pid) = false) →
      (pid = ("__pending__") → ∀ t ∈ store, ClaudeCode.tempActive t = false) →
      (∀ t ∈ store, ClaudeCode.activeOrAwaiting t = false) →
      ClaudeCode.findSessionForPermission store pid = none) := by
  refine ⟨?_, ?_, ?_, ?_⟩
  · intro store pid s hs hid
    cases hf : store.find? (fun t => t.id == pid) with
    | none =>
        exfalso
        have := List.find?_eq_none.mp hf s hs
        rw [hid] at this
        simp at this
    | some r =>
        have hpr0 := List.find?_some hf
        have hpr : (r.id == pid) = true := hpr0
        refine ⟨r, ?_, List.mem_of_find?_eq_some hf, beq_iff_eq.mp hpr⟩
        simp only [ClaudeCode.findSessionForPermission, hf]
  · intro pre post s hidall hpre hs
    have hexactnone : (pre ++ s :: post).find?
        (fun t => t.id == ("__pending__")) = none := by
      rw [List.find?_eq_none]
      intro t ht hp
      rw [hidall t ht] at hp
      exact Bool.noConfusion hp
    have htemp : (pre ++ s :: post).find? ClaudeCode.tempActive = some s := by
      have hprenone : pre.find? ClaudeCode.tempActive = none := by
        rw [List.find?_eq_none]
        intro t ht hp
        rw [hpre t ht] at hp
        exact Bool.noConfusion hp
      rw [find?_append_of_none _ _ _ hprenone]
      exact find?_cons_true ClaudeCode.tempActive s post hs
    simp only [ClaudeCode.findSessionForPermission, hexactnone, htemp,
      beq_self_eq_true, if_pos]
  · intro store pid s hexact hpend hmem hact hmax hstrict
    have hexactnone : store.find? (fun t => t.id == pid) = none := by
      rw [List.find?_eq_none]
      intro t ht hp
      rw [hexact t ht] at hp
      exact Bool.noConfusion hp
    have hlatest : ClaudeCode.latestGo none store = some s := by
      have hsome : (ClaudeCode.latestGo none store).isSome = true :=
        latestGo_isSome store none (Or.inl ⟨s, hmem, hact⟩)
      obtain ⟨a, ha⟩ := Option.isSome_iff_exists.mp hsome
      obtain ⟨h1, h2, h3⟩ := latestGo_spec store none a ha
      rcases h1 with h1 | h1
      · exact Option.noConfusion h1
      · have hale : a.createdAt ≤ s.createdAt := hmax a h1.1 h1.2
        have hsle : s.createdAt ≤ a.createdAt := h2 s hmem hact
        by_cases heq : a = s
        · rw [heq] at ha
          exact ha
        · have := hstrict a h1.1 heq h1.2
          omega
    by_cases hpid : (pid == ("__pending__")) = true
    · have htempnone : store.find? ClaudeCode.tempActive = none := by
        rw [List.find?_eq_none]
        intro t ht hp
        rw [hpend (beq_iff_eq.mp hpid) t ht] at hp
        exact Bool.noConfusion hp
      simp only [ClaudeCode.findSessionForPermission, hexactnone, hpid,
        if_pos, htempnone, hlatest]
    · simp only [ClaudeCode.findSessionForPermission, hexactnone,
        if_neg hpid, hlatest]
  · intro store pid hexact hpend hinactive
    have hexactnone : store.find? (fun t => t.id == pid) = none := by
      rw [List.find?_eq_none]
      intro t ht hp
      rw [hexact t ht] at hp
      exact Bool.noConfusion hp
    have hlatest : ClaudeCode.latestGo none store = none :=
      latestGo_none_of_inactive store hinactive
    by_cases hpid : (pid == ("__pending__")) = true
    · have htempnone : store.find? ClaudeCode.tempActive = none := by
        rw [List.find?_eq_none]
        intro t ht hp
        rw [hpend (beq_iff_eq.mp hpid) t ht] at hp
        exact Bool.noConfusion hp
      simp only [ClaudeCode.findSessionForPermission, hexactnone, hpid,
        if_pos, htempnone, hlatest]
    · simp only [ClaudeCode.findSessionForPermission, hexactnone,
        if_neg hpid, hlatest]

/-- Witness for C4 at concrete inputs: with an inactive session before the
first temp-id session, the `__pending__` lookup returns that temp session,
and the fallback returns the single active session for an unmatched id. -/
theorem c4_find_session_for_permission_witness :
    ClaudeCode.findSessionForPermission [c4Done, c4TempA] ("__pending__") =
      some c4TempA ∧
    ClaudeCode.findSessionForPermission [c4TempB] ("nope") = some c4TempB :=
  ⟨c4_find_session_for_permission.2.1 [c4Done] [] c4TempA
    (by decide) (by decide) (by decide),
   c4_find_session_for_permission.2.2.1 [c4TempB] ("nope") c4TempB
    (by decide) (by decide) (by simp) (by decide)
    (by
      intro t ht hta
      rw [List.mem_singleton] at ht
      subst ht
      exact Nat.le_refl _)
    (by
      intro t ht hne hta
      rw [List.mem_singleton] at ht
      exact absurd ht hne)⟩

/-- Counterexample for C4 as stated: with two active temp-id sessions in
the store, the `__pending__` lookup returns the first-inserted one
(`temp_a`, created at 0), not the most recently inserted one (`temp_b`,
created at 1), although the latter is also a temp-id active session. -/
theorem c4_find_session_for_permission_counterexample :
    ClaudeCode.findSessionForPermission [c4TempA, c4TempB] ("__pending__") =
      some c4TempA ∧
    c4TempA.id = ("temp_a") ∧
    c4TempB.id = ("temp_b") ∧
    c4TempA.createdAt = 0 ∧
    c4TempB.createdAt = 1 ∧
    ClaudeCode.tempActive c4TempB = true ∧
    c4TempA.id ≠ c4TempB.id :=
  ⟨rfl, rfl, rfl, rfl, rfl, by decide, by decide⟩

/-! ### Lemmas about the store -/

theorem listMapNoop {α : Type} (l : List α) (f : α → α)
    (h : ∀ t ∈ l, f t = t) : l.map f = l := by
  induction l with
  | nil => rfl
  | cons a t ih =>
      rw [List.map_cons, h a (List.mem_cons_self _ _),
        ih (fun x hx => h x (List.mem_cons_of_mem _ hx))]

theorem any_eq_false_of_find?_none {α : Type} (p : α → Bool) (l : List α)
    (h : l.find? p = none) : l.any p = false := by
  rw [List.any_eq_false]
  intro x hx
  exact List.find?_eq_none.mp h x hx

/-- Claim C10: calling say with an unknown session id inserts the tracked
placeholder (status `done`, no process) under that id before attempting the
resume; when the `max_sessions` capacity check then rejects the spawn, the
error propagates to the caller, the placeholder remains in the store, and a
subsequent status call on that id succeeds with the placeholder status. -/
theorem c10_say_unknown_session (maxSessions now : Nat) (cwd : String)
    (st : List ClaudeCode.Session) (sid : String)
    (h1 : ClaudeCode.storeGet st sid = none)
    (h2 : maxSessions ≤ ClaudeCode.getActiveSessionCount st) :
    (ClaudeCode.sayToSession maxSessions now cwd st sid none).2 =
      .error (ClaudeCode.capacityError maxSessions) ∧
    ClaudeCode.storeGet
      (ClaudeCode.sayToSession maxSessions now cwd st sid none).1 sid =
      some (ClaudeCode.trackedPlaceholder sid now cwd) ∧
    (ClaudeCode.trackedPlaceholder sid now cwd).status =
      ClaudeCode.SessionStatus.done ∧
    (ClaudeCode.trackedPlaceholder sid now cwd).process = none ∧
    ClaudeCode.getSessionStatus
      (ClaudeCode.sayToSession maxSessions now cwd st sid none).1 sid =
      .ok (sid, ClaudeCode.SessionStatus.done) := by
  have h1' : st.find? (fun s => s.id == sid) = none := h1
  have hidfalse : ∀ t ∈ st, (t.id == sid) = false := by
    intro t ht
    have := List.find?_eq_none.mp h1' t ht
    exact Bool.eq_false_iff.mpr this
  have hpid : (ClaudeCode.trackedPlaceholder sid now cwd).id = sid := rfl
  have hanyfalse :
      (st.any fun t => t.id == (ClaudeCode.trackedPlaceholder sid now cwd).id)
        = false := by
    rw [List.any_eq_false]
    intro t ht hp
    rw [hpid, hidfalse t ht] at hp
    exact Bool.noConfusion hp
  have hsetP : ClaudeCode.storeSet st
      (ClaudeCode.trackedPlaceholder sid now cwd) =
      st ++ [ClaudeCode.trackedPlaceholder sid now cwd] := by
    unfold ClaudeCode.storeSet
    rw [if_neg (by rw [hanyfalse]; exact Bool.noConfusion)]
  have hanyP : ((st ++ [ClaudeCode.trackedPlaceholder sid now cwd]).any
      fun t => t.id == (ClaudeCode.trackedPlaceholder sid now cwd).id)
        = true := by
    rw [List.any_append]
    simp
  have hsetP2 : ClaudeCode.storeSet
      (st ++ [ClaudeCode.trackedPlaceholder sid now cwd])
      (ClaudeCode.trackedPlaceholder sid now cwd) =
      st ++ [ClaudeCode.trackedPlaceholder sid now cwd] := by
    unfold ClaudeCode.storeSet
    rw [if_pos hanyP]
    refine listMapNoop _ _ ?_
    intro t ht
    rcases List.mem_append.mp ht with ht | ht
    · rw [hpid, if_neg (by rw [hidfalse t ht]; exact Bool.noConfusion)]
    · rw [List.mem_singleton] at ht
      subst ht
      rw [if_pos (by simp)]
  have hcount : ClaudeCode.getActiveSessionCount
      (st ++ [ClaudeCode.trackedPlaceholder sid now cwd]) =
      ClaudeCode.getActiveSessionCount st := by
    unfold ClaudeCode.getActiveSessionCount
    rw [List.countP_append]
    simp [ClaudeCode.trackedPlaceholder]
  have hmain : ClaudeCode.sayToSession maxSessions now cwd st sid none =
      (st ++ [ClaudeCode.trackedPlaceholder sid now cwd],
       .error (ClaudeCode.capacityError maxSessions)) := by
    show (match ClaudeCode.storeGet st sid with
      | some session => ClaudeCode.sayDeliver maxSessions st session none
      | none =>
          let created := ClaudeCode.createTrackedSession st sid now cwd
          ClaudeCode.sayDeliver maxSessions created.1 created.2 none) = _
    rw [h1]
    show ClaudeCode.sayDeliver maxSessions
      (ClaudeCode.storeSet st (ClaudeCode.trackedPlaceholder sid now cwd))
      (ClaudeCode.trackedPlaceholder sid now cwd) none = _
    rw [hsetP]
    unfold ClaudeCode.sayDeliver
    rw [if_neg (by simp [ClaudeCode.trackedPlaceholder])]
    show (match ClaudeCode.resumeSession maxSessions
        (ClaudeCode.storeSet
          (st ++ [ClaudeCode.trackedPlaceholder sid now cwd])
          (ClaudeCode.trackedPlaceholder sid now cwd))
        (ClaudeCode.trackedPlaceholder sid now cwd) with
      | (st3, Except.ok s3) => (st3, Except.ok (s3.id, s3.status))
      | (st3, Except.error e) => (st3, Except.error e)) = _
    rw [hsetP2]
    unfold ClaudeCode.resumeSession
    rw [hcount, if_pos h2]
  refine ⟨?_, ?_, rfl, rfl, ?_⟩
  · rw [hmain]
  · rw [hmain]
    show (st ++ [ClaudeCode.trackedPlaceholder sid now cwd]).find?
      (fun s => s.id == sid) = _
    rw [find?_append_of_none _ _ _ h1',
      find?_cons_true _ _ [] (by simp [ClaudeCode.trackedPlaceholder])]
  · rw [hmain]
    show ClaudeCode.getSessionStatus
      (st ++ [ClaudeCode.trackedPlaceholder sid now cwd]) sid = _
    unfold ClaudeCode.getSessionStatus
    have hget : ClaudeCode.storeGet
        (st ++ [ClaudeCode.trackedPlaceholder sid now cwd]) sid =
        some (ClaudeCode.trackedPlaceholder sid now cwd) := by
      show (st ++ [ClaudeCode.trackedPlaceholder sid now cwd]).find?
        (fun s => s.id == sid) = _
      rw [find?_append_of_none _ _ _ h1',
        find?_cons_true _ _ [] (by simp [ClaudeCode.trackedPlaceholder])]
    rw [hget]
    rfl

/-- Witness for C10 at a concrete input: an empty store with a capacity of
zero sessions. -/
theorem c10_say_unknown_session_witness :
    (ClaudeCode.sayToSession 0 7 ("/w") [] ("s9") none).2 =
      .error (ClaudeCode.capacityError 0) ∧
    ClaudeCode.storeGet
      (ClaudeCode.sayToSession 0 7 ("/w") [] ("s9") none).1 ("s9") =
      some (ClaudeCode.trackedPlaceholder ("s9") 7 ("/w")) ∧
    (ClaudeCode.trackedPlaceholder ("s9") 7 ("/w")).status =
      ClaudeCode.SessionStatus.done ∧
    (ClaudeCode.trackedPlaceholder ("s9") 7 ("/w")).process = none ∧
    ClaudeCode.getSessionStatus
      (ClaudeCode.sayToSession 0 7 ("/w") [] ("s9") none).1 ("s9") =
      .ok (("s9"), ClaudeCode.SessionStatus.done) :=
  c10_say_unknown_session 0 7 ("/w") [] ("s9") rfl (Nat.le_refl 0)
